import Mathlib

/-!
Verification development for the locomote core build tools: a PWA HTML
header generator (`lib/make-html-header.js`) and an icon/splashscreen
asset generator.  The JavaScript source is shallowly embedded below:
pure string templating becomes Lean string functions; the asset
generator's file-system and process side effects become an explicit
trace of `Effect` values; the file-system `exists` probe becomes an
arbitrary boolean predicate on paths.  The compiled-in definition
tables, the install-banner URLs, the bundled default base-image paths
and the manifest loader live in modules outside the embedded sources
and are supplied as parameters.
-/

/-- An icon definition from the compiled-in definition table:
a target platform tag and pixel dimensions. -/
structure IconDef where
  target : String
  w : Nat
  h : Nat
deriving DecidableEq

/-- A splashscreen definition: target platform tag, image dimensions,
device width and height, and device pixel ratio. -/
structure SplashDef where
  target : String
  w : Nat
  h : Nat
  dw : Nat
  dh : Nat
  dd : Nat
deriving DecidableEq

/-- The image-dimension part of a splashscreen definition, as consumed
by the image build procedure (which reads only target, w and h). -/
def SplashDef.toIconDef (d : SplashDef) : IconDef :=
  { target := d.target, w := d.w, h := d.h }

/-- The iOS sub-object of the manifest's pwa object.  A missing
statusBarStyle field is `none`. -/
structure IOSSettings where
  statusBarStyle : Option String
  showInstallBanner : Bool
deriving DecidableEq

/-- The pwa object of the manifest. -/
structure PWA where
  name : String
  short_name : String
  background_color : String
  display : String
  ios : IOSSettings
deriving DecidableEq

/-- A loaded manifest. -/
structure Manifest where
  pwa : PWA
deriving DecidableEq

/-- Build options; `indentSize` is absent when not configured. -/
structure BuildOpts where
  indentSize : Option Int
deriving DecidableEq

/-- Join of two path segments with a separator, modelling Path.join on
well-formed segment arguments (non-empty, no trailing separator). -/
def pathJoin (a b : String) : String := a ++ ("/" ++ b)

/-- Directory part of a path: everything before the last separator,
or "." when the path has no separator, modelling Path.dirname. -/
def dirname (p : String) : String :=
  if p.data.contains '/' then
    String.mk (((p.data.reverse.dropWhile (fun c => c != '/')).drop 1).reverse)
  else "."

/-- One observable side effect of the asset generator: the manifest
load, the recursive removal of the target directory, a file-existence
probe, a directory creation, a file copy, or an external tool
invocation with its command name and argument list (an argument is
`none` when the JavaScript value at that position is null). -/
inductive Effect where
  | readManifest : Effect
  | rmrf : String → Effect
  | probe : String → Effect
  | ensureDir : String → Effect
  | copy : String → String → Effect
  | execTool : String → List (Option String) → Effect
deriving DecidableEq

/-- JavaScript truthiness of an optional string: null/undefined and
the empty string are falsy. -/
def truthy : Option String → Bool
  | none => false
  | some s => !(s == "")

/-- The extension-probing loop of findFileMatch: for each extension in
order, probe `path.ext` and return the first existing path. -/
def findLoop (ex : String → Bool) (path : String) : List String → List Effect × Option String
  | [] => ([], none)
  | e :: es =>
    let fp := path ++ ("." ++ e)
    if ex fp then ([Effect.probe fp], some fp)
    else
      let r := findLoop ex path es
      (Effect.probe fp :: r.1, r.2)

/-- findFileMatch from the source: tries `path.ext` for each extension
in order and returns the first that exists; with no match, returns the
default path when it is truthy and exists; otherwise null.  The
`basePath` parameter is accepted but never used, exactly as in the
source.  Returns the trace of existence probes together with the
result. -/
def findFileMatch (ex : String → Bool) (basePath path : String)
    (exts : List String) (dflt : Option String) : List Effect × Option String :=
  match findLoop ex path exts with
  | (t, some r) => (t, some r)
  | (t, none) =>
    if truthy dflt then
      match dflt with
      | some d => (t ++ [Effect.probe d], if ex d then some d else none)
      | none => (t, none)
    else (t, none)

/-- The `WxH` size string of an image definition. -/
def sizeStr (w h : Nat) : String := toString w ++ ("x" ++ toString h)

/-- The relative image path `target/WxH` computed by buildImages. -/
def imageRelPath (d : IconDef) : String := d.target ++ ("/" ++ sizeStr d.w d.h)

/-- scaleImage from the source: the external tool invocation with the
exact argument list built there.  The JavaScript default of "black"
for an undefined background colour is not modelled because every call
site passes the manifest's background_color field. -/
def scaleImage (source : Option String) (target : String) (width height : Nat)
    (bgColor : String) : Effect :=
  Effect.execTool "convert"
    [ source,
      some "-resize", some (sizeStr width height ++ "^"),
      some "-background", some bgColor,
      some "-compose", some "Copy",
      some "-gravity", some "center",
      some "-extent", some (sizeStr width height),
      some target ]

/-- One iteration of the buildImages loop for a single image
definition: ensure the target directory, probe for a pre-made image at
the relative path, then either copy it or scale the base image. -/
def buildImageStep (ex : String → Bool) (sourcePath : String)
    (baseImagePath : Option String) (exts : List String)
    (targetPath bgColor : String) (d : IconDef) : List Effect :=
  let imagePath := imageRelPath d
  let targetImagePath := pathJoin targetPath imagePath
  let fm := findFileMatch ex sourcePath imagePath exts none
  Effect.ensureDir (dirname targetImagePath) ::
    (fm.1 ++
      (match fm.2 with
        | some existing => [Effect.copy existing targetImagePath]
        | none => [scaleImage baseImagePath targetImagePath d.w d.h bgColor]))

/-- buildImages from the source, as the trace of effects it performs
over its list of image definitions. -/
def buildImagesTrace (ex : String → Bool) (sourcePath : String)
    (baseImagePath : Option String) (imageDefs : List IconDef)
    (exts : List String) (targetPath bgColor : String) : List Effect :=
  imageDefs.flatMap (buildImageStep ex sourcePath baseImagePath exts targetPath bgColor)

/-- The destination written by an effect, when it writes one: the copy
destination, or the final (target path) argument of a tool
invocation. -/
def writeDest : Effect → Option String
  | Effect.copy _ dst => some dst
  | Effect.execTool _ args =>
    (match args.getLast? with
      | some a => a
      | none => none)
  | _ => none

/-- All file destinations written along a trace, in order. -/
def writeDests (t : List Effect) : List String := t.filterMap writeDest

/-- Whether an effect writes into the file tree (directory creation,
copy, or external tool invocation). -/
def isTreeWrite : Effect → Bool
  | Effect.ensureDir _ => true
  | Effect.copy _ _ => true
  | Effect.execTool _ _ => true
  | _ => false

/-- The asset generator's make function, as the trace of effects it
performs.  The compiled-in definition tables and the two default base
image paths (the bundled app icon, and the standard splashscreen
default whose definition lives outside the embedded source) are
parameters. -/
def makeAssets (ex : String → Bool) (manifest : Manifest) (source target : String)
    (appIconDefs : List IconDef) (splashscreenDefs : List SplashDef)
    (defaultBaseAppIconPath defaultStdSplashscreenPath : String) : List Effect :=
  let background_color := manifest.pwa.background_color
  let sourcePath := pathJoin source "_pwa"
  let targetPath := pathJoin target "pwa"
  let findIcon := findFileMatch ex sourcePath "appicon" ["png", "svg"]
    (some defaultBaseAppIconPath)
  let findStd := findFileMatch ex sourcePath "splashscreen" ["png", "svg"]
    (some defaultStdSplashscreenPath)
  let findIos := findFileMatch ex sourcePath "ios/splashscreen" ["png"] findStd.2
  Effect.readManifest ::
  Effect.rmrf targetPath ::
  (findIcon.1 ++
    (buildImagesTrace ex sourcePath findIcon.2 appIconDefs ["png", "svg"]
        targetPath background_color ++
      (findStd.1 ++
        (buildImagesTrace ex sourcePath findStd.2
            ((splashscreenDefs.filter (fun d => d.target == "std")).map SplashDef.toIconDef)
            ["png", "svg"] targetPath background_color ++
          (findIos.1 ++
            buildImagesTrace ex sourcePath findIos.2
              ((splashscreenDefs.filter (fun d => d.target == "ios")).map SplashDef.toIconDef)
              ["png"] targetPath background_color)))))

/-- The leading indent string of the header printer: indentSize spaces
when the option is a number (clamped at zero, as padEnd does), else
four spaces. -/
def indentOf (opts : BuildOpts) : String :=
  match opts.indentSize with
  | some n => String.mk (List.replicate n.toNat ' ')
  | none => "    "

/-- Whether the printer trims each line: only when indentSize is
exactly zero. -/
def trimFlag (opts : BuildOpts) : Bool := opts.indentSize == some 0

/-- JavaScript whitespace as far as the embedded strings use it. -/
def isWsChar (c : Char) : Bool := c == ' ' || c == '\t' || c == '\n' || c == '\r'

/-- Trim on character lists: drop whitespace from both ends. -/
def trimChars (l : List Char) : List Char :=
  ((l.dropWhile isWsChar).reverse.dropWhile isWsChar).reverse

/-- String.trim as used by the printer. -/
def jsTrim (s : String) : String := String.mk (trimChars s.data)

/-- One printed line: the indent, then the (possibly trimmed) line
content.  The terminating newline is added when the lines are joined
into the result string. -/
def emitLine (opts : BuildOpts) (s : String) : String :=
  indentOf opts ++ (if trimFlag opts then jsTrim s else s)

/-- The module-level iOS app icon table: the compiled-in table
filtered by target, once. -/
def IOSAppIconDefs (appIconDefs : List IconDef) : List IconDef :=
  appIconDefs.filter (fun d => d.target == "ios")

/-- The module-level iOS splashscreen table: the compiled-in table
filtered by target, once. -/
def IOSSplashscreenDefs (splashscreenDefs : List SplashDef) : List SplashDef :=
  splashscreenDefs.filter (fun d => d.target == "ios")

/-- getWebAppCapable from the source. -/
def getWebAppCapable (pwa : PWA) : String :=
  if pwa.display == "fullscreen" then "yes" else "no"

/-- The switch cases of getStatusBarStyle: the three valid status bar
values. -/
def isValidStatusBarStyle (s : String) : Bool :=
  s == "default" || s == "black" || s == "black-translucent"

/-- getStatusBarStyle from the source: echo a valid statusBarStyle
value; otherwise fall back on the display mode. -/
def getStatusBarStyle (pwa : PWA) : String :=
  match pwa.ios.statusBarStyle with
  | some s =>
    if isValidStatusBarStyle s then s
    else if pwa.display == "fullscreen" then "black-translucent" else "default"
  | none =>
    if pwa.display == "fullscreen" then "black-translucent" else "default"

/-- The fixed opening lines of the header: charset and viewport metas,
theme-color meta, blank, title, blank, manifest link, blank. -/
def headLines (opts : BuildOpts) (pwa : PWA) : List String :=
  [ emitLine opts "<meta charset=\"utf-8\" />",
    emitLine opts "<meta name=\"viewport\" content=\"width=device-width, initial-scale=1, shrink-to-fit=no\" />",
    emitLine opts ("<meta name=\"theme-color\" content=\"" ++ (pwa.background_color ++ "\" />")),
    "",
    emitLine opts ("<title>" ++ (pwa.name ++ "</title>")),
    "",
    emitLine opts "<link rel=\"manifest\" href=\"manifest.webmanifest\" />",
    "" ]

/-- The apple-touch-icon link line for one icon definition. -/
def iconLine (opts : BuildOpts) (d : IconDef) : String :=
  emitLine opts ("<link rel=\"apple-touch-icon\" sizes=\"" ++
    (sizeStr d.w d.h ++ ("\" href=\"pwa/appicon/" ++ (sizeStr d.w d.h ++ ".png\" />"))))

/-- The icon link section of the header: one line per iOS icon
definition. -/
def iconLines (opts : BuildOpts) (appIconDefs : List IconDef) : List String :=
  (IOSAppIconDefs appIconDefs).map (iconLine opts)

/-- The three printed lines of one apple-touch-startup-image link. -/
def splashLinesFor (opts : BuildOpts) (d : SplashDef) : List String :=
  [ emitLine opts "<link rel=\"apple-touch-startup-image\"",
    emitLine opts ("    href=\"pwa/splashscreen/" ++
      (sizeStr d.w d.h ++ ".png\"")),
    emitLine opts ("    media=\"(device-width: " ++
      (toString d.dw ++ ("px) and (device-height: " ++
        (toString d.dh ++ ("px) and (-webkit-device-pixel-ratio: " ++
          (toString d.dd ++ ")\" />")))))) ]

/-- The splashscreen link section of the header. -/
def splashLines (opts : BuildOpts) (splashscreenDefs : List SplashDef) : List String :=
  (IOSSplashscreenDefs splashscreenDefs).flatMap (splashLinesFor opts)

/-- The apple-mobile-web-app meta lines at the end of the header. -/
def tailMetaLines (opts : BuildOpts) (pwa : PWA) : List String :=
  [ emitLine opts ("<meta name=\"apple-mobile-web-app-title\" content=\"" ++
      (pwa.short_name ++ "\" />")),
    emitLine opts ("<meta name=\"apple-mobile-web-app-capable\" content=\"" ++
      (getWebAppCapable pwa ++ "\" />")),
    emitLine opts ("<meta name=\"apple-mobile-web-app-status-bar-style\" content=\"" ++
      (getStatusBarStyle pwa ++ "\" />")) ]

/-- The conditional install-banner lines: a blank, the stylesheet link
and the script tag, present exactly when showInstallBanner is truthy. -/
def bannerLines (opts : BuildOpts) (pwa : PWA) (cssURL jsURL : String) : List String :=
  if pwa.ios.showInstallBanner then
    [ "",
      emitLine opts ("<link rel=\"stylesheet\" href=\"" ++ (cssURL ++ "\" />")),
      emitLine opts ("<script src=\"" ++ (jsURL ++ "\"></script>")) ]
  else []

/-- The header generator's make function, as the list of printed lines
in order.  The install-banner URL constants are parameters. -/
def mkLines (opts : BuildOpts) (pwa : PWA) (appIconDefs : List IconDef)
    (splashscreenDefs : List SplashDef) (cssURL jsURL : String) : List String :=
  headLines opts pwa ++
    (iconLines opts appIconDefs ++
      ([""] ++
        (splashLines opts splashscreenDefs ++
          ([""] ++
            (tailMetaLines opts pwa ++ bannerLines opts pwa cssURL jsURL)))))

/-- Concatenation of printed lines as the printer builds its result:
each line is appended followed by one newline; a blank separator is a
bare newline. -/
def concatLines : List String → String
  | [] => ""
  | l :: ls => (l ++ "\n") ++ concatLines ls

/-- The header string returned to the caller. -/
def makeHtmlHeader (opts : BuildOpts) (pwa : PWA) (appIconDefs : List IconDef)
    (splashscreenDefs : List SplashDef) (cssURL jsURL : String) : String :=
  concatLines (mkLines opts pwa appIconDefs splashscreenDefs cssURL jsURL)

/-! ### Spec-side definitions

These restate what the specification's words claim, to be compared
with the definitions embedded from the source. -/

/-- File-match resolution as the specification words it: the path
`name.ext` for the first-listed extension whose file exists; the
default path when one is supplied and exists; otherwise no match. -/
def fileMatchSpec (ex : String → Bool) (path : String) (exts : List String)
    (dflt : Option String) : Option String :=
  match exts.find? (fun e => ex (path ++ ("." ++ e))) with
  | some e => some (path ++ ("." ++ e))
  | none =>
    match dflt with
    | some d => if ex d then some d else none
    | none => none

/-- The status-bar value as the specification words it: the input
verbatim when it is one of the three valid values, else
black-translucent for fullscreen display and default otherwise. -/
def statusBarSpec (pwa : PWA) : String :=
  match pwa.ios.statusBarStyle with
  | some s =>
    if s = "default" ∨ s = "black" ∨ s = "black-translucent" then s
    else if pwa.display = "fullscreen" then "black-translucent" else "default"
  | none => if pwa.display = "fullscreen" then "black-translucent" else "default"

/-! ### Helper lemmas about findFileMatch -/

theorem findLoop_snd (ex : String → Bool) (path : String) (exts : List String) :
    (findLoop ex path exts).2
      = (exts.find? (fun e => ex (path ++ ("." ++ e)))).map (fun e => path ++ ("." ++ e)) := by
  induction exts with
  | nil => rfl
  | cons e es ih =>
    cases h : ex (path ++ ("." ++ e)) with
    | true => simp [findLoop, h, List.find?]
    | false => simp [findLoop, h, List.find?, ih]

theorem findFileMatch_snd (ex : String → Bool) (basePath path : String)
    (exts : List String) (dflt : Option String) :
    (findFileMatch ex basePath path exts dflt).2
      = match (findLoop ex path exts).2 with
        | some r => some r
        | none =>
          if truthy dflt then
            match dflt with
            | some d => if ex d then some d else none
            | none => none
          else none := by
  rcases hfl : findLoop ex path exts with ⟨t, r⟩
  cases r with
  | some v => simp [findFileMatch, hfl]
  | none =>
    cases dflt with
    | none => simp [findFileMatch, hfl, truthy]
    | some d =>
      by_cases hd : d = ""
      · subst hd; simp [findFileMatch, hfl, truthy]
      · simp [findFileMatch, hfl, truthy, hd]

/-- C3: for every base path, name, extension list and optional default
path, file-match resolution returns `name.ext` for the first-listed
extension whose file exists; with no matching extension it returns the
default path when one is supplied and exists; with neither it returns
no match.  The sole environment assumption is that the existence probe
is false on the empty path, as on every real file system. -/
theorem c3_file_match_resolution (ex : String → Bool) (basePath path : String)
    (exts : List String) (dflt : Option String) (hex : ex "" = false) :
    (findFileMatch ex basePath path exts dflt).2 = fileMatchSpec ex path exts dflt := by
  rw [findFileMatch_snd, findLoop_snd]
  unfold fileMatchSpec
  cases hf : exts.find? (fun e => ex (path ++ ("." ++ e))) with
  | some e => simp
  | none =>
    simp only [Option.map_none']
    cases dflt with
    | none => simp [truthy]
    | some d =>
      by_cases hd : d = ""
      · subst hd; simp [truthy, hex]
      · simp [truthy, hd]

/-- Witness for C3 at a concrete input where only `name.svg` exists. -/
theorem c3_file_match_resolution_witness :
    ((fun s => s == "name.svg") "" = false) ∧
      (findFileMatch (fun s => s == "name.svg") "base" "name" ["png", "svg"] none).2
        = fileMatchSpec (fun s => s == "name.svg") "name" ["png", "svg"] none :=
  ⟨by decide,
    c3_file_match_resolution (fun s => s == "name.svg") "base" "name" ["png", "svg"] none
      (by decide)⟩

/-- C9: whenever file-match resolution returns a path, the existence
probe succeeded for that path during the call: the result is either
`name.ext` for a listed extension with the probe true, or the supplied
default path with the probe true. -/
theorem c9_result_probed (ex : String → Bool) (basePath path : String)
    (exts : List String) (dflt : Option String) (p : String)
    (h : (findFileMatch ex basePath path exts dflt).2 = some p) :
    (∃ e ∈ exts, p = path ++ ("." ++ e) ∧ ex p = true) ∨ (dflt = some p ∧ ex p = true) := by
  rw [findFileMatch_snd, findLoop_snd] at h
  cases hf : exts.find? (fun e => ex (path ++ ("." ++ e))) with
  | some e =>
    rw [hf] at h
    simp only [Option.map_some'] at h
    left
    have hm := List.mem_of_find?_eq_some hf
    have hp := List.find?_some hf
    have hpe : p = path ++ ("." ++ e) := (Option.some.inj h).symm
    subst hpe
    exact ⟨e, hm, rfl, hp⟩
  | none =>
    rw [hf] at h
    simp only [Option.map_none'] at h
    right
    cases dflt with
    | none => simp [truthy] at h
    | some d =>
      by_cases hd : d = ""
      · subst hd; simp [truthy] at h
      · cases hxd : ex d with
        | true =>
          simp [truthy, hd, hxd] at h
          subst h
          exact ⟨rfl, hxd⟩
        | false => simp [truthy, hd, hxd] at h

/-- Witness for C9 at a concrete input where `name.png` exists. -/
theorem c9_result_probed_witness :
    ((fun s => s == "name.png") "name.png" = true) ∧
      ((∃ e ∈ ["png", "svg"], "name.png" = "name" ++ ("." ++ e)
          ∧ (fun s => s == "name.png") "name.png" = true) ∨
        ((none : Option String) = some "name.png"
          ∧ (fun s => s == "name.png") "name.png" = true)) :=
  ⟨by decide,
    c9_result_probed (fun s => s == "name.png") "base" "name" ["png", "svg"] none "name.png"
      (by decide)⟩

/-- C2: the header's apple-mobile-web-app-status-bar-style value
equals the manifest's statusBarStyle whenever that field is one of the
three valid values, and otherwise is black-translucent for fullscreen
display and default for any other display; the meta line carrying that
value is printed in the header. -/
theorem c2_status_bar_style (opts : BuildOpts) (pwa : PWA) (appIconDefs : List IconDef)
    (splashscreenDefs : List SplashDef) (cssURL jsURL : String) :
    getStatusBarStyle pwa = statusBarSpec pwa ∧
      emitLine opts ("<meta name=\"apple-mobile-web-app-status-bar-style\" content=\"" ++
          (statusBarSpec pwa ++ "\" />"))
        ∈ mkLines opts pwa appIconDefs splashscreenDefs cssURL jsURL := by
  have hs : getStatusBarStyle pwa = statusBarSpec pwa := by
    unfold getStatusBarStyle statusBarSpec isValidStatusBarStyle
    cases pwa.ios.statusBarStyle with
    | none => simp [beq_iff_eq]
    | some s =>
      by_cases h1 : s = "default" <;> by_cases h2 : s = "black" <;>
        by_cases h3 : s = "black-translucent" <;>
          simp [h1, h2, h3, beq_iff_eq]
  refine ⟨hs, ?_⟩
  rw [← hs]
  simp [mkLines, tailMetaLines, List.mem_append]

/-! ### Write destinations of the asset generator -/

/-- Whether a trace contains a file copy. -/
def hasCopy (t : List Effect) : Bool :=
  t.any (fun e => match e with | Effect.copy _ _ => true | _ => false)

theorem writeDests_findLoop (ex : String → Bool) (path : String) (exts : List String) :
    writeDests (findLoop ex path exts).1 = [] := by
  induction exts with
  | nil => rfl
  | cons e es ih =>
    cases h : ex (path ++ ("." ++ e)) with
    | true => simp [findLoop, h, writeDests, writeDest]
    | false =>
      have hh := ih
      simp [findLoop, h, writeDests, writeDest] at hh ⊢
      exact hh

theorem writeDests_findFileMatch (ex : String → Bool) (basePath path : String)
    (exts : List String) (dflt : Option String) :
    writeDests (findFileMatch ex basePath path exts dflt).1 = [] := by
  have hl := writeDests_findLoop ex path exts
  rcases hfl : findLoop ex path exts with ⟨t, r⟩
  rw [hfl] at hl
  cases r with
  | some v => simpa [findFileMatch, hfl] using hl
  | none =>
    cases dflt with
    | none => simpa [findFileMatch, hfl, truthy] using hl
    | some d =>
      by_cases hd : d = ""
      · subst hd; simpa [findFileMatch, hfl, truthy] using hl
      · simp [findFileMatch, hfl, truthy, hd, writeDests, writeDest, List.filterMap_append] at hl ⊢
        exact hl

theorem writeDests_buildImageStep (ex : String → Bool) (sourcePath : String)
    (base : Option String) (exts : List String) (targetPath bg : String) (d : IconDef) :
    writeDests (buildImageStep ex sourcePath base exts targetPath bg d)
      = [pathJoin targetPath (imageRelPath d)] := by
  have hf := writeDests_findFileMatch ex sourcePath (imageRelPath d) exts none
  rcases hm : findFileMatch ex sourcePath (imageRelPath d) exts none with ⟨t, r⟩
  rw [hm] at hf
  simp only [writeDests] at hf
  cases r with
  | some existing =>
    simp [buildImageStep, hm, writeDests, writeDest, List.filterMap_append, hf]
  | none =>
    have hw : writeDest (scaleImage base (pathJoin targetPath (imageRelPath d)) d.w d.h bg)
        = some (pathJoin targetPath (imageRelPath d)) := rfl
    have he : writeDest (Effect.ensureDir (dirname (pathJoin targetPath (imageRelPath d))))
        = none := rfl
    simp [buildImageStep, hm, writeDests, List.filterMap_append, hf, List.filterMap_cons, hw, he]

theorem writeDests_buildImagesTrace (ex : String → Bool) (sourcePath : String)
    (base : Option String) (imageDefs : List IconDef) (exts : List String)
    (targetPath bg : String) :
    writeDests (buildImagesTrace ex sourcePath base imageDefs exts targetPath bg)
      = imageDefs.map (fun d => pathJoin targetPath (imageRelPath d)) := by
  induction imageDefs with
  | nil => rfl
  | cons d ds ih =>
    have hstep := writeDests_buildImageStep ex sourcePath base exts targetPath bg d
    simp only [writeDests] at hstep ih ⊢
    simp [buildImagesTrace, List.flatMap_cons, List.filterMap_append, hstep]
    simpa [buildImagesTrace, writeDests] using ih

theorem pathJoin_left_assoc (t x : String) :
    pathJoin (pathJoin t "pwa") x = pathJoin t (pathJoin "pwa" x) := by
  unfold pathJoin
  rw [String.append_assoc, String.append_assoc]

/-- C1 amended: for every icon and splashscreen definition processed
by the asset generator, the generated image file is written, relative
to the target root, at `pwa/TAG/WxH` where TAG is the definition's own
target field - with no appicon or splashscreen path segment and no
png extension appended. -/
theorem c1_layout_amended (ex : String → Bool) (manifest : Manifest)
    (source target : String) (appIconDefs : List IconDef)
    (splashscreenDefs : List SplashDef) (dIcon dStd : String) :
    writeDests (makeAssets ex manifest source target appIconDefs splashscreenDefs dIcon dStd)
      = appIconDefs.map (fun d => pathJoin target (pathJoin "pwa" (imageRelPath d))) ++
        (((splashscreenDefs.filter (fun d => d.target == "std")).map
            (fun d => pathJoin target (pathJoin "pwa" (imageRelPath d.toIconDef)))) ++
          ((splashscreenDefs.filter (fun d => d.target == "ios")).map
            (fun d => pathJoin target (pathJoin "pwa" (imageRelPath d.toIconDef))))) := by
  have h1 := writeDests_findFileMatch ex (pathJoin source "_pwa") "appicon" ["png", "svg"]
    (some dIcon)
  have h2 := writeDests_findFileMatch ex (pathJoin source "_pwa") "splashscreen" ["png", "svg"]
    (some dStd)
  have h3 := writeDests_findFileMatch ex (pathJoin source "_pwa") "ios/splashscreen" ["png"]
    (findFileMatch ex (pathJoin source "_pwa") "splashscreen" ["png", "svg"] (some dStd)).2
  have b1 := writeDests_buildImagesTrace ex (pathJoin source "_pwa")
    (findFileMatch ex (pathJoin source "_pwa") "appicon" ["png", "svg"] (some dIcon)).2
    appIconDefs ["png", "svg"] (pathJoin target "pwa") manifest.pwa.background_color
  have b2 := writeDests_buildImagesTrace ex (pathJoin source "_pwa")
    (findFileMatch ex (pathJoin source "_pwa") "splashscreen" ["png", "svg"] (some dStd)).2
    ((splashscreenDefs.filter (fun d => d.target == "std")).map SplashDef.toIconDef)
    ["png", "svg"] (pathJoin target "pwa") manifest.pwa.background_color
  have b3 := writeDests_buildImagesTrace ex (pathJoin source "_pwa")
    (findFileMatch ex (pathJoin source "_pwa") "ios/splashscreen" ["png"]
      (findFileMatch ex (pathJoin source "_pwa") "splashscreen" ["png", "svg"] (some dStd)).2).2
    ((splashscreenDefs.filter (fun d => d.target == "ios")).map SplashDef.toIconDef)
    ["png"] (pathJoin target "pwa") manifest.pwa.background_color
  simp only [writeDests] at h1 h2 h3 b1 b2 b3 ⊢
  simp [makeAssets, List.filterMap_cons, List.filterMap_append, writeDest,
    h1, h2, h3, b1, b2, b3, List.map_map, Function.comp, pathJoin_left_assoc]
  rfl

/-- C1 counterexample: with a single icon definition of target tag
"ios" and size 120, the asset generator writes exactly one file, at
out/pwa/ios/120x120, which is not the claimed out/pwa/appicon/120x120.png. -/
theorem c1_layout_counterexample :
    writeDests (makeAssets (fun _ => false)
        ⟨⟨"Demo", "Demo", "#fff", "standalone", ⟨none, false⟩⟩⟩ "src" "out"
        [⟨"ios", 120, 120⟩] [] "assets/appicon.png" "dsplash")
      = ["out/pwa/ios/120x120"] ∧
      ("out/pwa/ios/120x120" : String) ≠ "out/pwa/appicon/120x120.png" := by
  constructor
  · rfl
  · decide

/-- C4 at the failing input: the source tree holds a pre-made image at
src/ios/120x120.png (the probe is true exactly there), yet the build
step probes the CWD-relative paths ios/120x120.png and ios/120x120.svg,
finds nothing, performs no copy, and invokes the scaling tool - with
exactly the argument list of scaleImage. -/
theorem c4_premade_probe_eval :
    buildImagesTrace (fun s => s == "src/ios/120x120.png") "src/_pwa" (some "base.png")
        [⟨"ios", 120, 120⟩] ["png", "svg"] "out/pwa" "#fff"
      = [Effect.ensureDir "out/pwa/ios",
          Effect.probe "ios/120x120.png", Effect.probe "ios/120x120.svg",
          Effect.execTool "convert"
            [some "base.png", some "-resize", some "120x120^",
              some "-background", some "#fff", some "-compose", some "Copy",
              some "-gravity", some "center", some "-extent", some "120x120",
              some "out/pwa/ios/120x120"]] ∧
      hasCopy (buildImagesTrace (fun s => s == "src/ios/120x120.png") "src/_pwa"
        (some "base.png") [⟨"ios", 120, 120⟩] ["png", "svg"] "out/pwa" "#fff") = false := by
  constructor
  · rfl
  · rfl

/-- C7: in every invocation of the asset generator - whatever the
manifest, the definition tables and the state of the disk - the trace
begins with the manifest read followed immediately by the recursive
removal of the target image directory, so no directory creation, copy
or scaling invocation precedes the removal. -/
theorem c7_rmrf_first (ex : String → Bool) (manifest : Manifest) (source target : String)
    (appIconDefs : List IconDef) (splashscreenDefs : List SplashDef) (dIcon dStd : String) :
    ∃ pre post,
      makeAssets ex manifest source target appIconDefs splashscreenDefs dIcon dStd
          = pre ++ (Effect.rmrf (pathJoin target "pwa") :: post) ∧
        pre.all (fun e => !isTreeWrite e) = true :=
  ⟨[Effect.readManifest], _, rfl, rfl⟩

/-- C8: the header links one apple-touch-icon per icon definition
whose target is ios, while the asset generator builds an image for
every entry of the icon definition table; the ios-filtered table is a
sub-collection of the full table, and is strictly smaller whenever a
non-ios definition exists. -/
theorem c8_icon_defs_superset (appIconDefs : List IconDef) :
    (∀ d ∈ IOSAppIconDefs appIconDefs, d ∈ appIconDefs) ∧
      (IOSAppIconDefs appIconDefs).length ≤ appIconDefs.length ∧
      ((∃ d ∈ appIconDefs, ¬ d.target = "ios") →
        (IOSAppIconDefs appIconDefs).length < appIconDefs.length) ∧
      (∀ opts, (iconLines opts appIconDefs).length = (IOSAppIconDefs appIconDefs).length) ∧
      (∀ ex sourcePath base exts targetPath bg,
        (writeDests (buildImagesTrace ex sourcePath base appIconDefs exts targetPath bg)).length
          = appIconDefs.length) := by
  refine ⟨?_, ?_, ?_, ?_, ?_⟩
  · intro d hd
    simp only [IOSAppIconDefs] at hd
    exact (List.mem_filter.mp hd).1
  · simp only [IOSAppIconDefs]
    exact List.length_filter_le _ _
  · rintro ⟨d, hd, ht⟩
    simp only [IOSAppIconDefs]
    exact List.length_filter_lt_length_iff_exists.mpr ⟨d, hd, by simp [ht]⟩
  · intro opts; simp [iconLines]
  · intro ex sourcePath base exts targetPath bg
    rw [writeDests_buildImagesTrace]
    simp

/-- Witness for C8 on a two-entry table with one non-ios definition:
the header's table is strictly smaller than the asset generator's. -/
theorem c8_icon_defs_superset_witness :
    (IOSAppIconDefs [⟨"ios", 120, 120⟩, ⟨"std", 64, 64⟩]).length
      < ([⟨"ios", 120, 120⟩, ⟨"std", 64, 64⟩] : List IconDef).length :=
  (c8_icon_defs_superset [⟨"ios", 120, 120⟩, ⟨"std", 64, 64⟩]).2.2.1
    ⟨⟨"std", 64, 64⟩, by decide, by decide⟩

/-! ### Physical lines of the generated header string -/

/-- The number of leading space characters of a character list. -/
def leadingSpacesL (l : List Char) : Nat := (l.takeWhile (fun c => c == ' ')).length

/-- The number of leading space characters of a string. -/
def leadingSpaces (s : String) : Nat := leadingSpacesL s.data

/-- Split a character list at newline characters; the physical lines
of a string, with one trailing empty line after a final newline. -/
def splitNl : List Char → List (List Char)
  | [] => [[]]
  | c :: cs =>
    match splitNl cs with
    | [] => [[c]]
    | h :: t => if c = '\n' then [] :: (h :: t) else (c :: h) :: t

theorem splitNl_ne_nil : ∀ l : List Char, splitNl l ≠ [] := by
  intro l
  cases l with
  | nil => simp [splitNl]
  | cons c cs =>
    simp only [splitNl]
    rcases h : splitNl cs with _ | ⟨h0, t0⟩
    · simp
    · by_cases hc : c = '\n' <;> simp [hc]

theorem splitNl_append_nl (l r : List Char) (h : '\n' ∉ l) :
    splitNl (l ++ '\n' :: r) = l :: splitNl r := by
  induction l with
  | nil =>
    simp only [List.nil_append, splitNl]
    rcases hr : splitNl r with _ | ⟨h0, t0⟩
    · exact absurd hr (splitNl_ne_nil r)
    · simp
  | cons c cs ih =>
    have hc : c ≠ '\n' := by
      intro hcc
      exact h (by rw [hcc]; exact List.mem_cons_self _ _)
    have hcs : '\n' ∉ cs := fun hh => h (List.mem_cons_of_mem c hh)
    have ihh := ih hcs
    rw [List.cons_append, splitNl, ihh]
    simp [hc]

theorem data_concatLines_cons (l : String) (ls : List String) :
    (concatLines (l :: ls)).data = l.data ++ ('\n' :: (concatLines ls).data) := by
  show ((l ++ "\n") ++ concatLines ls).data = _
  rw [String.data_append, String.data_append]
  simp

theorem splitNl_concatLines (ls : List String) (h : ∀ li ∈ ls, '\n' ∉ li.data) :
    splitNl (concatLines ls).data = ls.map String.data ++ [[]] := by
  induction ls with
  | nil => rfl
  | cons l rest ih =>
    rw [data_concatLines_cons, splitNl_append_nl _ _ (h l (List.mem_cons_self l rest))]
    rw [ih (fun li hli => h li (List.mem_cons_of_mem l hli))]
    simp

/-! ### Character-level helper lemmas -/

theorem str_data_inj {a b : String} (h : a.data = b.data) : a = b := by
  cases a
  cases b
  exact congrArg String.mk h

theorem takeWhile_append_of_any {α : Type} (p : α → Bool) (l t : List α)
    (h : l.any (fun a => !p a) = true) :
    (l ++ t).takeWhile p = l.takeWhile p := by
  induction l with
  | nil => simp at h
  | cons a as ih =>
    cases hp : p a with
    | false => simp [List.takeWhile_cons, hp]
    | true =>
      have h' : as.any (fun a => !p a) = true := by
        simp only [List.any_cons, hp, Bool.not_true, Bool.false_or] at h
        exact h
      simp [List.takeWhile_cons, hp, ih h']

theorem isPrefixOf_append_false (p : List Char) :
    ∀ (c t : List Char), (p.zip c).any (fun ab => ab.1 != ab.2) = true →
      p.isPrefixOf (c ++ t) = false := by
  induction p with
  | nil => intro c t h; simp at h
  | cons a as ih =>
    intro c t h
    cases c with
    | nil => simp at h
    | cons b bs =>
      simp only [List.zip_cons_cons, List.any_cons] at h
      by_cases hab : a = b
      · subst hab
        simp only [bne_self_eq_false, Bool.false_or] at h
        simp [List.cons_append, List.isPrefixOf, ih bs t h]
      · simp [List.cons_append, List.isPrefixOf, hab]

theorem isPrefixOf_append_true (p : List Char) :
    ∀ (c t : List Char), p.isPrefixOf c = true → p.isPrefixOf (c ++ t) = true := by
  induction p with
  | nil => intro c t _; simp [List.isPrefixOf]
  | cons a as ih =>
    intro c t h
    cases c with
    | nil => simp [List.isPrefixOf] at h
    | cons b bs =>
      simp only [List.cons_append, List.isPrefixOf, Bool.and_eq_true] at h ⊢
      exact ⟨h.1, ih bs t h.2⟩

theorem mem_of_mem_dropWhile {α : Type} (p : α → Bool) (x : α) :
    ∀ l : List α, x ∈ l.dropWhile p → x ∈ l := by
  intro l
  induction l with
  | nil => intro h; simpa using h
  | cons a as ih =>
    intro h
    cases hp : p a with
    | true =>
      rw [List.dropWhile_cons, if_pos (by simp [hp])] at h
      exact List.mem_cons_of_mem a (ih h)
    | false =>
      rw [List.dropWhile_cons, if_neg (by simp [hp])] at h
      exact h

theorem mem_dropWhile_of_mem {α : Type} (p : α → Bool) (x : α) (hx : p x = false) :
    ∀ l : List α, x ∈ l → x ∈ l.dropWhile p := by
  intro l
  induction l with
  | nil => intro h; simpa using h
  | cons a as ih =>
    intro h
    cases hp : p a with
    | true =>
      rw [List.dropWhile_cons, if_pos (by simp [hp])]
      rcases List.mem_cons.mp h with rfl | hmem
      · rw [hp] at hx; cases hx
      · exact ih hmem
    | false =>
      rw [List.dropWhile_cons, if_neg (by simp [hp])]
      exact h

theorem mem_trimChars (a : Char) (ha : isWsChar a = false) (l : List Char) (hm : a ∈ l) :
    a ∈ trimChars l := by
  unfold trimChars
  have h1 := mem_dropWhile_of_mem isWsChar a ha l hm
  have h2 : a ∈ (l.dropWhile isWsChar).reverse := List.mem_reverse.mpr h1
  have h3 := mem_dropWhile_of_mem isWsChar a ha _ h2
  exact List.mem_reverse.mpr h3

theorem mem_of_mem_trimChars (x : Char) (l : List Char) (hx : x ∈ trimChars l) : x ∈ l := by
  unfold trimChars at hx
  have h1 := List.mem_reverse.mp hx
  have h2 := mem_of_mem_dropWhile isWsChar x _ h1
  have h3 := List.mem_reverse.mp h2
  exact mem_of_mem_dropWhile isWsChar x _ h3

/-- Boolean string-prefix test over character data. -/
def strHasPre (p s : String) : Bool := p.data.isPrefixOf s.data

theorem strHasPre_concat_false (p c t : String)
    (h : (p.data.zip c.data).any (fun ab => ab.1 != ab.2) = true) :
    strHasPre p (c ++ t) = false := by
  unfold strHasPre
  rw [String.data_append]
  exact isPrefixOf_append_false _ _ _ h

theorem strHasPre_concat_true (p c t : String) (h : strHasPre p c = true) :
    strHasPre p (c ++ t) = true := by
  unfold strHasPre at *
  rw [String.data_append]
  exact isPrefixOf_append_true _ _ _ h

theorem leadingSpaces_append (a b : String)
    (h : a.data.any (fun c => !(c == ' ')) = true) :
    leadingSpaces (a ++ b) = leadingSpaces a := by
  unfold leadingSpaces leadingSpacesL
  rw [String.data_append, takeWhile_append_of_any _ _ _ h]

/-! ### No newline occurs inside any printed line -/

theorem digitChar_not_nl (m : Nat) (h : m < 10) : Nat.digitChar m ≠ '\n' := by
  interval_cases m <;> decide

theorem toDigitsCore_not_nl :
    ∀ (fuel n : Nat) (ds : List Char), (∀ c ∈ ds, c ≠ '\n') →
      ∀ c ∈ Nat.toDigitsCore 10 fuel n ds, c ≠ '\n' := by
  intro fuel
  induction fuel with
  | zero => intro n ds hds c hc; exact hds c hc
  | succ f ih =>
    intro n ds hds c hc
    have hd : ∀ x ∈ Nat.digitChar (n % 10) :: ds, x ≠ '\n' := by
      intro x hx
      rcases List.mem_cons.mp hx with rfl | hxm
      · exact digitChar_not_nl _ (Nat.mod_lt _ (by decide))
      · exact hds x hxm
    simp only [Nat.toDigitsCore] at hc
    split at hc
    · exact hd c hc
    · exact ih _ _ hd c hc

theorem natRepr_not_nl (n : Nat) : '\n' ∉ (toString n).data := by
  intro h
  exact toDigitsCore_not_nl (n + 1) n [] (fun c hc => absurd hc (List.not_mem_nil c)) '\n' h rfl

theorem no_nl_append (a b : String) (ha : '\n' ∉ a.data) (hb : '\n' ∉ b.data) :
    '\n' ∉ (a ++ b).data := by
  rw [String.data_append]
  intro h
  rcases List.mem_append.mp h with h | h
  · exact ha h
  · exact hb h

theorem no_nl_sizeStr (w h : Nat) : '\n' ∉ (sizeStr w h).data := by
  unfold sizeStr
  exact no_nl_append _ _ (natRepr_not_nl w)
    (no_nl_append _ _ (by decide) (natRepr_not_nl h))

theorem indent_no_nl (opts : BuildOpts) : '\n' ∉ (indentOf opts).data := by
  unfold indentOf
  cases opts.indentSize with
  | none => decide
  | some n =>
    intro h
    have hmem : ('\n' : Char) ∈ List.replicate n.toNat ' ' := h
    have := List.eq_of_mem_replicate hmem
    exact absurd this (by decide)

theorem capable_no_nl (pwa : PWA) : '\n' ∉ (getWebAppCapable pwa).data := by
  unfold getWebAppCapable
  split <;> decide


theorem statusBar_no_nl (pwa : PWA) : '\n' ∉ (getStatusBarStyle pwa).data := by
  rcases hs : pwa.ios.statusBarStyle with _ | s
  · simp only [getStatusBarStyle, hs]
    split <;> decide
  · simp only [getStatusBarStyle, hs]
    by_cases hv : isValidStatusBarStyle s = true
    · rw [if_pos hv]
      unfold isValidStatusBarStyle at hv
      simp only [Bool.or_eq_true, beq_iff_eq] at hv
      rcases hv with (rfl | rfl) | rfl <;> decide
    · rw [if_neg hv]
      split <;> decide

theorem noNl_emitLine (opts : BuildOpts) (s : String) (hs : '\n' ∉ s.data) :
    '\n' ∉ (emitLine opts s).data := by
  unfold emitLine
  apply no_nl_append _ _ (indent_no_nl opts)
  cases ht : trimFlag opts with
  | false => simpa using hs
  | true =>
    simp only [if_true]
    intro h
    have hmem : ('\n' : Char) ∈ trimChars s.data := h
    exact hs (mem_of_mem_trimChars _ _ hmem)

theorem nonWs_mem_emitLine (opts : BuildOpts) (s : String) (c : Char)
    (hw : isWsChar c = false) (hc : c ∈ s.data) : c ∈ (emitLine opts s).data := by
  unfold emitLine
  rw [String.data_append]
  apply List.mem_append_right
  cases ht : trimFlag opts with
  | false => simpa [ht] using hc
  | true =>
    simp only [ht, if_true]
    exact mem_trimChars c hw s.data hc

theorem mem_left_append (a : Char) (x y : String) (h : a ∈ x.data) : a ∈ (x ++ y).data := by
  rw [String.data_append]
  exact List.mem_append_left _ h

/-- Under the assumption that the manifest string fields and the
install-banner URLs contain no newline, no printed line of the header
contains a newline, so the printed lines are exactly the physical
lines of the returned string. -/
theorem mkLines_no_nl (opts : BuildOpts) (pwa : PWA) (icons : List IconDef)
    (splashes : List SplashDef) (css js : String)
    (h1 : '\n' ∉ pwa.name.data) (h2 : '\n' ∉ pwa.short_name.data)
    (h3 : '\n' ∉ pwa.background_color.data) (h4 : '\n' ∉ css.data) (h5 : '\n' ∉ js.data) :
    ∀ line ∈ mkLines opts pwa icons splashes css js, '\n' ∉ line.data := by
  intro line hline
  simp only [mkLines, List.mem_append] at hline
  rcases hline with hh | hline
  · simp only [headLines, List.mem_cons, List.not_mem_nil, or_false] at hh
    rcases hh with rfl | rfl | rfl | rfl | rfl | rfl | rfl | rfl
    · exact noNl_emitLine _ _ (by decide)
    · exact noNl_emitLine _ _ (by decide)
    · exact noNl_emitLine _ _ (no_nl_append _ _ (by decide) (no_nl_append _ _ h3 (by decide)))
    · decide
    · exact noNl_emitLine _ _ (no_nl_append _ _ (by decide) (no_nl_append _ _ h1 (by decide)))
    · decide
    · exact noNl_emitLine _ _ (by decide)
    · decide
  rcases hline with hi | hline
  · rcases List.mem_map.mp hi with ⟨d, hd, rfl⟩
    unfold iconLine
    exact noNl_emitLine _ _ (no_nl_append _ _ (by decide)
      (no_nl_append _ _ (no_nl_sizeStr _ _)
        (no_nl_append _ _ (by decide) (no_nl_append _ _ (no_nl_sizeStr _ _) (by decide)))))
  rcases hline with hb | hline
  · simp only [List.mem_singleton] at hb
    subst hb
    decide
  rcases hline with hsp | hline
  · unfold splashLines at hsp
    rcases List.mem_flatMap.mp hsp with ⟨d, hd, hin⟩
    simp only [splashLinesFor, List.mem_cons, List.not_mem_nil, or_false] at hin
    rcases hin with rfl | rfl | rfl
    · exact noNl_emitLine _ _ (by decide)
    · exact noNl_emitLine _ _ (no_nl_append _ _ (by decide)
        (no_nl_append _ _ (no_nl_sizeStr _ _) (by decide)))
    · exact noNl_emitLine _ _ (no_nl_append _ _ (by decide)
        (no_nl_append _ _ (natRepr_not_nl _)
          (no_nl_append _ _ (by decide)
            (no_nl_append _ _ (natRepr_not_nl _)
              (no_nl_append _ _ (by decide)
                (no_nl_append _ _ (natRepr_not_nl _) (by decide)))))))
  rcases hline with hb2 | hline
  · simp only [List.mem_singleton] at hb2
    subst hb2
    decide
  rcases hline with ht | hbn
  · simp only [tailMetaLines, List.mem_cons, List.not_mem_nil, or_false] at ht
    rcases ht with rfl | rfl | rfl
    · exact noNl_emitLine _ _ (no_nl_append _ _ (by decide) (no_nl_append _ _ h2 (by decide)))
    · exact noNl_emitLine _ _ (no_nl_append _ _ (by decide)
        (no_nl_append _ _ (capable_no_nl pwa) (by decide)))
    · exact noNl_emitLine _ _ (no_nl_append _ _ (by decide)
        (no_nl_append _ _ (statusBar_no_nl pwa) (by decide)))
  · unfold bannerLines at hbn
    by_cases hib : pwa.ios.showInstallBanner
    · rw [if_pos hib] at hbn
      simp only [List.mem_cons, List.not_mem_nil, or_false] at hbn
      rcases hbn with rfl | rfl | rfl
      · decide
      · exact noNl_emitLine _ _ (no_nl_append _ _ (by decide) (no_nl_append _ _ h4 (by decide)))
      · exact noNl_emitLine _ _ (no_nl_append _ _ (by decide) (no_nl_append _ _ h5 (by decide)))
    · rw [if_neg hib] at hbn
      exact absurd hbn (List.not_mem_nil line)

/-- Case analysis on membership in the printed header lines: every
printed line is a blank separator or one of the template lines. -/
theorem mkLines_cases (opts : BuildOpts) (pwa : PWA) (icons : List IconDef)
    (splashes : List SplashDef) (css js : String) (line : String)
    (hline : line ∈ mkLines opts pwa icons splashes css js) :
    line = "" ∨
      line = emitLine opts "<meta charset=\"utf-8\" />" ∨
      line = emitLine opts "<meta name=\"viewport\" content=\"width=device-width, initial-scale=1, shrink-to-fit=no\" />" ∨
      line = emitLine opts ("<meta name=\"theme-color\" content=\"" ++ (pwa.background_color ++ "\" />")) ∨
      line = emitLine opts ("<title>" ++ (pwa.name ++ "</title>")) ∨
      line = emitLine opts "<link rel=\"manifest\" href=\"manifest.webmanifest\" />" ∨
      (∃ d, d ∈ IOSAppIconDefs icons ∧ line = iconLine opts d) ∨
      (∃ d, d ∈ IOSSplashscreenDefs splashes ∧ line ∈ splashLinesFor opts d) ∨
      line = emitLine opts ("<meta name=\"apple-mobile-web-app-title\" content=\"" ++ (pwa.short_name ++ "\" />")) ∨
      line = emitLine opts ("<meta name=\"apple-mobile-web-app-capable\" content=\"" ++ (getWebAppCapable pwa ++ "\" />")) ∨
      line = emitLine opts ("<meta name=\"apple-mobile-web-app-status-bar-style\" content=\"" ++ (getStatusBarStyle pwa ++ "\" />")) ∨
      (pwa.ios.showInstallBanner = true ∧
        (line = emitLine opts ("<link rel=\"stylesheet\" href=\"" ++ (css ++ "\" />")) ∨
          line = emitLine opts ("<script src=\"" ++ (js ++ "\"></script>")))) := by
  simp only [mkLines, List.mem_append] at hline
  rcases hline with hh | hline
  · simp only [headLines, List.mem_cons, List.not_mem_nil, or_false] at hh
    rcases hh with rfl | rfl | rfl | rfl | rfl | rfl | rfl | rfl
    · exact Or.inr (Or.inl rfl)
    · exact Or.inr (Or.inr (Or.inl rfl))
    · exact Or.inr (Or.inr (Or.inr (Or.inl rfl)))
    · exact Or.inl rfl
    · exact Or.inr (Or.inr (Or.inr (Or.inr (Or.inl rfl))))
    · exact Or.inl rfl
    · exact Or.inr (Or.inr (Or.inr (Or.inr (Or.inr (Or.inl rfl)))))
    · exact Or.inl rfl
  rcases hline with hi | hline
  · rcases List.mem_map.mp hi with ⟨d, hd, rfl⟩
    exact Or.inr (Or.inr (Or.inr (Or.inr (Or.inr (Or.inr (Or.inl ⟨d, hd, rfl⟩))))))
  rcases hline with hb | hline
  · simp only [List.mem_singleton] at hb
    exact Or.inl hb
  rcases hline with hsp | hline
  · unfold splashLines at hsp
    rcases List.mem_flatMap.mp hsp with ⟨d, hd, hin⟩
    exact Or.inr (Or.inr (Or.inr (Or.inr (Or.inr (Or.inr (Or.inr (Or.inl ⟨d, hd, hin⟩)))))))
  rcases hline with hb2 | hline
  · simp only [List.mem_singleton] at hb2
    exact Or.inl hb2
  rcases hline with ht | hbn
  · simp only [tailMetaLines, List.mem_cons, List.not_mem_nil, or_false] at ht
    rcases ht with rfl | rfl | rfl
    · exact Or.inr (Or.inr (Or.inr (Or.inr (Or.inr (Or.inr (Or.inr (Or.inr (Or.inl rfl))))))))
    · exact Or.inr (Or.inr (Or.inr (Or.inr (Or.inr (Or.inr (Or.inr (Or.inr (Or.inr
        (Or.inl rfl)))))))))
    · exact Or.inr (Or.inr (Or.inr (Or.inr (Or.inr (Or.inr (Or.inr (Or.inr (Or.inr
        (Or.inr (Or.inl rfl))))))))))
  · unfold bannerLines at hbn
    by_cases hib : pwa.ios.showInstallBanner
    · rw [if_pos hib] at hbn
      simp only [List.mem_cons, List.not_mem_nil, or_false] at hbn
      rcases hbn with rfl | hbn
      · exact Or.inl rfl
      · exact Or.inr (Or.inr (Or.inr (Or.inr (Or.inr (Or.inr (Or.inr (Or.inr (Or.inr
          (Or.inr (Or.inr ⟨hib, hbn⟩))))))))))
    · rw [if_neg hib] at hbn
      exact absurd hbn (List.not_mem_nil line)

/-- The default build options: no indentSize configured. -/
def defaultOpts : BuildOpts := ⟨none⟩

theorem emitLine_two (s : String) : emitLine ⟨some 2⟩ s = "  " ++ s := by
  have ha : indentOf ⟨some 2⟩ = "  " := by decide
  have hb : trimFlag ⟨some 2⟩ = false := by decide
  rw [emitLine, ha, hb]
  simp

theorem leadingSpaces_pre (a b : String) (n : Nat)
    (h : a.data.any (fun c => !(c == ' ')) = true) (hn : leadingSpaces a = n) :
    leadingSpaces (a ++ b) = n := by
  rw [leadingSpaces_append _ _ h]
  exact hn

theorem blank_contra (opts : BuildOpts) (s : String) (c : Char)
    (hwc : isWsChar c = false) (hcs : c ∈ s.data)
    (hall : (emitLine opts s).data.all (fun x => x == ' ') = true) : False := by
  have hm := nonWs_mem_emitLine opts s c hwc hcs
  have hce := List.all_eq_true.mp hall c hm
  rw [beq_iff_eq] at hce
  subst hce
  simp [isWsChar] at hwc

/-- C10: for every indentSize, a blank separator contributes a bare
newline: every all-whitespace physical line of the generated header is
empty - blank lines carry no indent and no other characters. -/
theorem c10_blank_lines (opts : BuildOpts) (pwa : PWA) (icons : List IconDef)
    (splashes : List SplashDef) (css js : String)
    (h1 : '\n' ∉ pwa.name.data) (h2 : '\n' ∉ pwa.short_name.data)
    (h3 : '\n' ∉ pwa.background_color.data) (h4 : '\n' ∉ css.data) (h5 : '\n' ∉ js.data) :
    ∀ pl ∈ splitNl (makeHtmlHeader opts pwa icons splashes css js).data,
      pl.all (fun c => c == ' ') = true → pl = [] := by
  intro pl hpl hall
  have hnl := mkLines_no_nl opts pwa icons splashes css js h1 h2 h3 h4 h5
  rw [makeHtmlHeader, splitNl_concatLines _ hnl] at hpl
  rcases List.mem_append.mp hpl with hm | hm
  · rcases List.mem_map.mp hm with ⟨line, hline, rfl⟩
    rcases mkLines_cases opts pwa icons splashes css js line hline with
      rfl | h | h | h | h | h | ⟨d, hd, h⟩ | ⟨d, hd, hsp⟩ | h | h | h | ⟨_, h | h⟩
    · rfl
    · subst h
      exact (blank_contra _ _ '<' (by decide) (by decide) hall).elim
    · subst h
      exact (blank_contra _ _ '<' (by decide) (by decide) hall).elim
    · subst h
      exact (blank_contra _ _ '<' (by decide) (mem_left_append _ _ _ (by decide)) hall).elim
    · subst h
      exact (blank_contra _ _ '<' (by decide) (mem_left_append _ _ _ (by decide)) hall).elim
    · subst h
      exact (blank_contra _ _ '<' (by decide) (by decide) hall).elim
    · subst h
      unfold iconLine at hall ⊢
      exact (blank_contra _ _ '<' (by decide) (mem_left_append _ _ _ (by decide)) hall).elim
    · simp only [splashLinesFor, List.mem_cons, List.not_mem_nil, or_false] at hsp
      rcases hsp with rfl | rfl | rfl
      · exact (blank_contra _ _ '<' (by decide) (by decide) hall).elim
      · exact (blank_contra _ _ 'h' (by decide) (mem_left_append _ _ _ (by decide)) hall).elim
      · exact (blank_contra _ _ 'm' (by decide) (mem_left_append _ _ _ (by decide)) hall).elim
    · subst h
      exact (blank_contra _ _ '<' (by decide) (mem_left_append _ _ _ (by decide)) hall).elim
    · subst h
      exact (blank_contra _ _ '<' (by decide) (mem_left_append _ _ _ (by decide)) hall).elim
    · subst h
      exact (blank_contra _ _ '<' (by decide) (mem_left_append _ _ _ (by decide)) hall).elim
    · subst h
      exact (blank_contra _ _ '<' (by decide) (mem_left_append _ _ _ (by decide)) hall).elim
    · subst h
      exact (blank_contra _ _ '<' (by decide) (mem_left_append _ _ _ (by decide)) hall).elim
  · simp only [List.mem_singleton] at hm
    exact hm

/-- Witness for C10 at a concrete manifest and tables. -/
theorem c10_blank_lines_witness :
    ('\n' ∉ ("Demo" : String).data) ∧ ('\n' ∉ ("#fff" : String).data) ∧
      ('\n' ∉ ("css" : String).data) ∧ ('\n' ∉ ("js" : String).data) ∧
      (∀ pl ∈ splitNl (makeHtmlHeader ⟨none⟩
          ⟨"Demo", "Demo", "#fff", "standalone", ⟨none, false⟩⟩ []
          [⟨"ios", 640, 1136, 320, 568, 2⟩] "css" "js").data,
        pl.all (fun c => c == ' ') = true → pl = []) :=
  ⟨by decide, by decide, by decide, by decide,
    c10_blank_lines ⟨none⟩ ⟨"Demo", "Demo", "#fff", "standalone", ⟨none, false⟩⟩ []
      [⟨"ios", 640, 1136, 320, 568, 2⟩] "css" "js"
      (by decide) (by decide) (by decide) (by decide) (by decide)⟩

set_option maxRecDepth 8000 in
/-- C6 counterexample: with indentSize 2, a manifest with one iOS
splashscreen definition in the table, the href continuation line of
the startup-image link is a non-blank physical line of the header
with six leading spaces, not two.  The splashscreen table entry is
modelled from the specification, the settings module being outside
the embedded sources. -/
theorem c6_indent_counterexample :
    ("      href=\"pwa/splashscreen/640x1136.png\"").data
        ∈ splitNl (makeHtmlHeader ⟨some 2⟩
            ⟨"Demo", "Demo", "#fff", "standalone", ⟨none, false⟩⟩ []
            [⟨"ios", 640, 1136, 320, 568, 2⟩] "css" "js").data ∧
      ("      href=\"pwa/splashscreen/640x1136.png\"").data ≠ [] ∧
      leadingSpacesL ("      href=\"pwa/splashscreen/640x1136.png\"").data ≠ 2 := by
  refine ⟨by decide, by decide, by decide⟩

/-- A physical line that is one of the startup-image continuation
lines - the href line or the media line printed for an iOS
splashscreen definition of the table - under indentSize 2. -/
def isSplashContLine (splashes : List SplashDef) (pl : List Char) : Prop :=
  ∃ d ∈ IOSSplashscreenDefs splashes,
    pl = (emitLine ⟨some 2⟩
        ("    href=\"pwa/splashscreen/" ++ (sizeStr d.w d.h ++ ".png\""))).data ∨
      pl = (emitLine ⟨some 2⟩
        ("    media=\"(device-width: " ++ (toString d.dw ++ ("px) and (device-height: " ++
          (toString d.dh ++ ("px) and (-webkit-device-pixel-ratio: " ++
            (toString d.dd ++ ")\" />"))))))).data

theorem splashHref_leading (d : SplashDef) :
    leadingSpacesL (emitLine ⟨some 2⟩
      ("    href=\"pwa/splashscreen/" ++ (sizeStr d.w d.h ++ ".png\""))).data = 6 := by
  rw [emitLine_two, ← String.append_assoc]
  exact leadingSpaces_pre _ _ 6 (by decide) (by decide)

theorem splashMedia_leading (d : SplashDef) :
    leadingSpacesL (emitLine ⟨some 2⟩
      ("    media=\"(device-width: " ++ (toString d.dw ++ ("px) and (device-height: " ++
        (toString d.dh ++ ("px) and (-webkit-device-pixel-ratio: " ++
          (toString d.dd ++ ")\" />"))))))).data = 6 := by
  rw [emitLine_two, ← String.append_assoc]
  exact leadingSpaces_pre _ _ 6 (by decide) (by decide)

theorem leading_six_of_cont (splashes : List SplashDef) (pl : List Char)
    (hc : isSplashContLine splashes pl) : leadingSpacesL pl = 6 := by
  rcases hc with ⟨d, -, rfl | rfl⟩
  · exact splashHref_leading d
  · exact splashMedia_leading d

theorem leading_two_case (splashes : List SplashDef) (pl : List Char)
    (h2 : leadingSpacesL pl = 2) :
    (leadingSpacesL pl = 2 ∨ leadingSpacesL pl = 6) ∧
      (leadingSpacesL pl = 6 ↔ isSplashContLine splashes pl) :=
  ⟨Or.inl h2,
    fun h6 => absurd (h2.symm.trans h6) (by decide),
    fun hc => leading_six_of_cont splashes pl hc⟩

/-- C6 amended: with indentSize 2, every non-blank physical line of
the generated header begins with exactly two spaces before the printed
content; the href and media continuation lines of the splashscreen
links have template content that itself begins with four spaces, so
every non-blank line has exactly two or exactly six leading spaces,
and the lines with six leading spaces are exactly those href/media
continuation lines. -/
theorem c6_indent_amended (pwa : PWA) (icons : List IconDef) (splashes : List SplashDef)
    (css js : String)
    (h1 : '\n' ∉ pwa.name.data) (h2 : '\n' ∉ pwa.short_name.data)
    (h3 : '\n' ∉ pwa.background_color.data) (h4 : '\n' ∉ css.data) (h5 : '\n' ∉ js.data) :
    ∀ pl ∈ splitNl (makeHtmlHeader ⟨some 2⟩ pwa icons splashes css js).data,
      pl ≠ [] →
        (leadingSpacesL pl = 2 ∨ leadingSpacesL pl = 6) ∧
          (leadingSpacesL pl = 6 ↔ isSplashContLine splashes pl) := by
  intro pl hpl hne
  have hnl := mkLines_no_nl ⟨some 2⟩ pwa icons splashes css js h1 h2 h3 h4 h5
  rw [makeHtmlHeader, splitNl_concatLines _ hnl] at hpl
  rcases List.mem_append.mp hpl with hm | hm
  · rcases List.mem_map.mp hm with ⟨line, hline, rfl⟩
    rcases mkLines_cases ⟨some 2⟩ pwa icons splashes css js line hline with
      rfl | h | h | h | h | h | ⟨d, hd, h⟩ | ⟨d, hd, hsp⟩ | h | h | h | ⟨_, h | h⟩
    · exact absurd rfl hne
    · subst h
      refine leading_two_case splashes _ ?_
      rw [emitLine_two]
      decide
    · subst h
      refine leading_two_case splashes _ ?_
      rw [emitLine_two]
      decide
    · subst h
      refine leading_two_case splashes _ ?_
      rw [emitLine_two, ← String.append_assoc]
      exact leadingSpaces_pre _ _ 2 (by decide) (by decide)
    · subst h
      refine leading_two_case splashes _ ?_
      rw [emitLine_two, ← String.append_assoc]
      exact leadingSpaces_pre _ _ 2 (by decide) (by decide)
    · subst h
      refine leading_two_case splashes _ ?_
      rw [emitLine_two]
      decide
    · subst h
      unfold iconLine
      refine leading_two_case splashes _ ?_
      rw [emitLine_two, ← String.append_assoc]
      exact leadingSpaces_pre _ _ 2 (by decide) (by decide)
    · simp only [splashLinesFor, List.mem_cons, List.not_mem_nil, or_false] at hsp
      rcases hsp with rfl | rfl | rfl
      · refine leading_two_case splashes _ ?_
        rw [emitLine_two]
        decide
      · exact ⟨Or.inr (splashHref_leading d),
          fun _ => ⟨d, hd, Or.inl rfl⟩,
          fun _ => splashHref_leading d⟩
      · exact ⟨Or.inr (splashMedia_leading d),
          fun _ => ⟨d, hd, Or.inr rfl⟩,
          fun _ => splashMedia_leading d⟩
    · subst h
      refine leading_two_case splashes _ ?_
      rw [emitLine_two, ← String.append_assoc]
      exact leadingSpaces_pre _ _ 2 (by decide) (by decide)
    · subst h
      refine leading_two_case splashes _ ?_
      rw [emitLine_two, ← String.append_assoc]
      exact leadingSpaces_pre _ _ 2 (by decide) (by decide)
    · subst h
      refine leading_two_case splashes _ ?_
      rw [emitLine_two, ← String.append_assoc]
      exact leadingSpaces_pre _ _ 2 (by decide) (by decide)
    · subst h
      refine leading_two_case splashes _ ?_
      rw [emitLine_two, ← String.append_assoc]
      exact leadingSpaces_pre _ _ 2 (by decide) (by decide)
    · subst h
      refine leading_two_case splashes _ ?_
      rw [emitLine_two, ← String.append_assoc]
      exact leadingSpaces_pre _ _ 2 (by decide) (by decide)
  · simp only [List.mem_singleton] at hm
    exact absurd hm hne

/-- Witness for the amended C6 at a concrete manifest and tables. -/
theorem c6_indent_amended_witness :
    ('\n' ∉ ("Demo" : String).data) ∧ ('\n' ∉ ("#fff" : String).data) ∧
      ('\n' ∉ ("css" : String).data) ∧ ('\n' ∉ ("js" : String).data) ∧
      (∀ pl ∈ splitNl (makeHtmlHeader ⟨some 2⟩
          ⟨"Demo", "Demo", "#fff", "standalone", ⟨none, false⟩⟩ []
          [⟨"ios", 640, 1136, 320, 568, 2⟩] "css" "js").data,
        pl ≠ [] →
          (leadingSpacesL pl = 2 ∨ leadingSpacesL pl = 6) ∧
            (leadingSpacesL pl = 6 ↔
              isSplashContLine [⟨"ios", 640, 1136, 320, 568, 2⟩] pl)) :=
  ⟨by decide, by decide, by decide, by decide,
    c6_indent_amended ⟨"Demo", "Demo", "#fff", "standalone", ⟨none, false⟩⟩ []
      [⟨"ios", 640, 1136, 320, 568, 2⟩] "css" "js"
      (by decide) (by decide) (by decide) (by decide) (by decide)⟩

theorem emitLine_default (s : String) : emitLine defaultOpts s = "    " ++ s := by
  have ha : indentOf defaultOpts = "    " := by decide
  have hb : trimFlag defaultOpts = false := by decide
  rw [emitLine, ha, hb]
  simp

/-- The sixteen-character prefix that, under default options, occurs
on the install-banner stylesheet line and on no other printed line. -/
def bannerCssPre : String := "    <link rel=\"s"

/-- C5: under default build options, the install-banner stylesheet
link line and script line are physical lines of the generated header
exactly when the manifest's showInstallBanner flag is true. -/
theorem c5_install_banner_iff (pwa : PWA) (icons : List IconDef) (splashes : List SplashDef)
    (css js : String)
    (h1 : '\n' ∉ pwa.name.data) (h2 : '\n' ∉ pwa.short_name.data)
    (h3 : '\n' ∉ pwa.background_color.data) (h4 : '\n' ∉ css.data) (h5 : '\n' ∉ js.data) :
    ((emitLine defaultOpts ("<link rel=\"stylesheet\" href=\"" ++ (css ++ "\" />"))).data
        ∈ splitNl (makeHtmlHeader defaultOpts pwa icons splashes css js).data ∧
      (emitLine defaultOpts ("<script src=\"" ++ (js ++ "\"></script>"))).data
        ∈ splitNl (makeHtmlHeader defaultOpts pwa icons splashes css js).data)
      ↔ pwa.ios.showInstallBanner = true := by
  have hnl := mkLines_no_nl defaultOpts pwa icons splashes css js h1 h2 h3 h4 h5
  rw [makeHtmlHeader, splitNl_concatLines _ hnl]
  constructor
  · rintro ⟨hcss, -⟩
    by_cases hib : pwa.ios.showInstallBanner
    · exact hib
    · exfalso
      rcases List.mem_append.mp hcss with hm | hm
      · rcases List.mem_map.mp hm with ⟨line, hline, hdata⟩
        have htrue : strHasPre bannerCssPre line = true := by
          rw [str_data_inj hdata, emitLine_default, ← String.append_assoc]
          exact strHasPre_concat_true _ _ _ (by decide)
        rcases mkLines_cases defaultOpts pwa icons splashes css js line hline with
          h | h | h | h | h | h | ⟨d, hd, h⟩ | ⟨d, hd, hsp⟩ | h | h | h | ⟨hflag, -⟩
        · rw [h] at htrue
          exact absurd htrue (by decide)
        · rw [h, emitLine_default] at htrue
          exact absurd htrue (by decide)
        · rw [h, emitLine_default] at htrue
          exact absurd htrue (by decide)
        · rw [h, emitLine_default, ← String.append_assoc] at htrue
          rw [strHasPre_concat_false] at htrue
          · exact Bool.noConfusion htrue
          · decide
        · rw [h, emitLine_default, ← String.append_assoc] at htrue
          rw [strHasPre_concat_false] at htrue
          · exact Bool.noConfusion htrue
          · decide
        · rw [h, emitLine_default] at htrue
          exact absurd htrue (by decide)
        · rw [h] at htrue
          unfold iconLine at htrue
          rw [emitLine_default, ← String.append_assoc] at htrue
          rw [strHasPre_concat_false] at htrue
          · exact Bool.noConfusion htrue
          · decide
        · simp only [splashLinesFor, List.mem_cons, List.not_mem_nil, or_false] at hsp
          rcases hsp with h | h | h
          · rw [h, emitLine_default] at htrue
            exact absurd htrue (by decide)
          · rw [h, emitLine_default, ← String.append_assoc] at htrue
            rw [strHasPre_concat_false] at htrue
            · exact Bool.noConfusion htrue
            · decide
          · rw [h, emitLine_default, ← String.append_assoc] at htrue
            rw [strHasPre_concat_false] at htrue
            · exact Bool.noConfusion htrue
            · decide
        · rw [h, emitLine_default, ← String.append_assoc] at htrue
          rw [strHasPre_concat_false] at htrue
          · exact Bool.noConfusion htrue
          · decide
        · rw [h, emitLine_default, ← String.append_assoc] at htrue
          rw [strHasPre_concat_false] at htrue
          · exact Bool.noConfusion htrue
          · decide
        · rw [h, emitLine_default, ← String.append_assoc] at htrue
          rw [strHasPre_concat_false] at htrue
          · exact Bool.noConfusion htrue
          · decide
        · exact hib hflag
      · simp only [List.mem_singleton] at hm
        rw [emitLine_default, String.data_append] at hm
        exact absurd (List.append_eq_nil.mp hm).1 (by decide)
  · intro hib
    have hcssmem : emitLine defaultOpts ("<link rel=\"stylesheet\" href=\"" ++ (css ++ "\" />"))
        ∈ mkLines defaultOpts pwa icons splashes css js := by
      rw [mkLines]
      apply List.mem_append_right
      apply List.mem_append_right
      apply List.mem_append_right
      apply List.mem_append_right
      apply List.mem_append_right
      apply List.mem_append_right
      rw [bannerLines, if_pos hib]
      simp
    have hjsmem : emitLine defaultOpts ("<script src=\"" ++ (js ++ "\"></script>"))
        ∈ mkLines defaultOpts pwa icons splashes css js := by
      rw [mkLines]
      apply List.mem_append_right
      apply List.mem_append_right
      apply List.mem_append_right
      apply List.mem_append_right
      apply List.mem_append_right
      apply List.mem_append_right
      rw [bannerLines, if_pos hib]
      simp
    exact ⟨List.mem_append_left _ (List.mem_map.mpr ⟨_, hcssmem, rfl⟩),
      List.mem_append_left _ (List.mem_map.mpr ⟨_, hjsmem, rfl⟩)⟩

/-- Witness for C5 at a concrete manifest with the banner enabled. -/
theorem c5_install_banner_iff_witness :
    ('\n' ∉ ("Demo" : String).data) ∧ ('\n' ∉ ("#fff" : String).data) ∧
      ('\n' ∉ ("css" : String).data) ∧ ('\n' ∉ ("js" : String).data) ∧
      (((emitLine defaultOpts ("<link rel=\"stylesheet\" href=\"" ++ ("css" ++ "\" />"))).data
          ∈ splitNl (makeHtmlHeader defaultOpts
              ⟨"Demo", "Demo", "#fff", "standalone", ⟨none, true⟩⟩ [] [] "css" "js").data ∧
        (emitLine defaultOpts ("<script src=\"" ++ ("js" ++ "\"></script>"))).data
          ∈ splitNl (makeHtmlHeader defaultOpts
              ⟨"Demo", "Demo", "#fff", "standalone", ⟨none, true⟩⟩ [] [] "css" "js").data)
        ↔ true = true) :=
  ⟨by decide, by decide, by decide, by decide,
    c5_install_banner_iff ⟨"Demo", "Demo", "#fff", "standalone", ⟨none, true⟩⟩ [] [] "css" "js"
      (by decide) (by decide) (by decide) (by decide) (by decide)⟩
